import Mathlib

/-!
# Verification of the commitscrapper credential-pool and request-executor core

Shallow embedding of the resource-management core of `commitscrapper.py`:
the `TokenManager` (credential pool), the retry loop of
`GitHubClient._make_request` (resilient request executor), and the
`watchdog_thread` stall detector.  Times are modelled as integers
(timestamps), credentials are identified by their index in the token list
(the token strings are dict keys and therefore pairwise distinct), and the
non-reentrant `threading.Lock` is modelled explicitly where the code
re-acquires it.
-/

namespace Commitscrapper

/-! ## Data model

`token_stats[token]` in `TokenManager.__init__` (commitscrapper.py:168) is
the dict `{"remaining": 5000, "reset_time": None, "requests": 0}`.
`reset_time` is a `datetime`, modelled as an integer timestamp. -/

structure TokenStats where
  remaining : Int
  reset_time : Option Int
  requests : Nat
  deriving Repr, DecidableEq

/-- The mutable state of `TokenManager` (commitscrapper.py:166-173): the
per-token stats in token order, the rotation cursor `current_index`, and
the `global_sleep_mode` flag. -/
structure TMState where
  stats : List TokenStats
  current_index : Nat
  global_sleep_mode : Bool
  deriving Repr, DecidableEq

/-- Fresh stats as initialised in `TokenManager.__init__`. -/
def initStats : TokenStats := ⟨5000, none, 0⟩

/-- Initial `TokenManager` state for a pool of `n` tokens. -/
def initTM (n : Nat) : TMState :=
  ⟨List.replicate n initStats, 0, false⟩

/-- `TokenManager._is_token_available` (commitscrapper.py:190-199).  The
source keeps the branch on `reset_time`, but both branches return
`stats["remaining"] > 10`. -/
def is_token_available (now : Int) (stats : TokenStats) : Bool :=
  match stats.reset_time with
  | none => stats.remaining > 10
  | some t =>
    if now ≥ t then stats.remaining > 10
    else stats.remaining > 10

/-- Replace the element at index `i` (no-op when out of range), used to
model in-place mutation of one entry of `token_stats`. -/
def modifyIdx (l : List TokenStats) (i : Nat) (f : TokenStats → TokenStats) :
    List TokenStats :=
  match l, i with
  | [], _ => []
  | x :: xs, 0 => f x :: xs
  | x :: xs, Nat.succ j => x :: modifyIdx xs j f

/-- `self.token_stats[token]["requests"] += 1`. -/
def incrRequests (l : List TokenStats) (i : Nat) : List TokenStats :=
  modifyIdx l i (fun s => { s with requests := s.requests + 1 })

/-- The first pass of `TokenManager.get_token` (commitscrapper.py:210-221):
`for _ in range(len(self.tokens))`, test the token at the cursor, advance
the cursor modulo the pool size, return the first available token together
with the advanced cursor.  `fuel` counts the remaining loop iterations. -/
def primary_pass (now : Int) (n : Nat) (stats : List TokenStats) :
    Nat → Nat → Option (Nat × Nat)
  | _, 0 => none
  | cur, Nat.succ fuel =>
    if is_token_available now (stats.getD cur initStats) then
      some (cur, (cur + 1) % n)
    else
      primary_pass now n stats ((cur + 1) % n) fuel

/-- The second pass of `TokenManager.get_token` (commitscrapper.py:225-229):
`for idx, token in enumerate(self.tokens)`, return the first available
index without touching the cursor. -/
def borrow_pass (now : Int) (stats : List TokenStats) : Option Nat :=
  stats.findIdx? (is_token_available now)

/-- `TokenManager.get_token` (commitscrapper.py:201-236).  Returns the index
of the returned token together with the successor state.
* In global sleep mode it returns `self.tokens[0]` unchanged (no
  `requests` increment, commitscrapper.py:205-207).
* Otherwise the primary rotation pass, then the borrow pass, then the
  exhaustion fallback which sets `global_sleep_mode`, increments
  `requests` of token 0 and returns it (commitscrapper.py:231-236). -/
def get_token (now : Int) (st : TMState) : Nat × TMState :=
  if st.global_sleep_mode then
    (0, st)
  else
    let n := st.stats.length
    match primary_pass now n st.stats st.current_index n with
    | some (i, cur) =>
      (i, { st with stats := incrRequests st.stats i, current_index := cur })
    | none =>
      match borrow_pass now st.stats with
      | some i =>
        (i, { st with stats := incrRequests st.stats i })
      | none =>
        (0, { st with stats := incrRequests st.stats 0, global_sleep_mode := true })

/-- `TokenManager.update_rate_limit` (commitscrapper.py:238-242): overwrite
`remaining` and `reset_time` of token `i` with the observed values. -/
def update_rate_limit (st : TMState) (i : Nat) (remaining : Int)
    (reset_timestamp : Int) : TMState :=
  { st with
    stats := modifyIdx st.stats i
      (fun s => { s with remaining := remaining,
                         reset_time := some reset_timestamp }) }

/-- `TokenManager.all_tokens_exhausted` (commitscrapper.py:274-280): the
loop returns `False` at the first available token and `True` when none is
available. -/
def all_tokens_exhausted (now : Int) (st : TMState) : Bool :=
  st.stats.all (fun s => !(is_token_available now s))

/-! ## The coordinated sleep, with the non-reentrant lock made explicit

`self.lock` is a `threading.Lock` (commitscrapper.py:170), which is not
reentrant: a thread acquiring a lock it already holds blocks forever.
`acquireSame` models an acquisition by the thread that is tracked, given
whether that thread already holds the lock: `none` means the acquisition
never completes (self-deadlock). -/

def acquireSame (held : Bool) : Option Unit :=
  if held then none else some ()

/-- `TokenManager.get_stats` (commitscrapper.py:244-272) as called for its
`available_tokens` count: it acquires `self.lock` first, so it is given the
lock state of the calling thread.  Returns `none` when the acquisition
deadlocks. -/
def get_stats_available (now : Int) (st : TMState) (held : Bool) :
    Option Nat :=
  match acquireSame held with
  | none => none
  | some _ => some ((st.stats.filter (is_token_available now)).length)

/-- `TokenManager.sleep_and_reset` (commitscrapper.py:282-327), single
caller.  `none` means the call never returns.
* Quick check without the lock: not in sleep mode → return (line 285).
* `with self.lock:` → second check (line 290), then
  `stats = self.get_stats()` (line 295) is executed while the lock is
  held, so `get_stats` re-acquires the held non-reentrant lock.
* The remainder (notify, `time.sleep(RATE_LIMIT_SLEEP)`, re-acquire the
  lock, reset every token to remaining 5000 / reset_time None, clear
  `global_sleep_mode`, lines 297-327) is modelled as the state it would
  produce. -/
def sleep_and_reset (now : Int) (st : TMState) : Option TMState :=
  if !st.global_sleep_mode then
    some st
  else
    if !st.global_sleep_mode then
      some st
    else
      match get_stats_available now st true with
      | none => none
      | some _ =>
        some { st with
               stats := st.stats.map
                 (fun s => { s with remaining := 5000, reset_time := none }),
               global_sleep_mode := false }

/-- What the spec says the recovery phase of `enterSleepIfNeeded` does to
the pool state.  Modelled from the spec: "reset every credential's quota
to the configured ceiling, clear `resetAt`, clear `exhausted`". -/
def sleep_and_reset_specified (st : TMState) : TMState :=
  { st with
    stats := st.stats.map
      (fun s => { s with remaining := 5000, reset_time := none }),
    global_sleep_mode := false }

/-- The availability predicate as the spec words it: `remainingCalls >
lowWaterMark AND (resetAt is unset OR now ≥ resetAt)` (low-water mark 10).
Kept distinct from `is_token_available`, which is translated from the
source, so the two can be compared. -/
def spec_available (now : Int) (stats : TokenStats) : Bool :=
  decide (stats.remaining > 10) &&
    (match stats.reset_time with
     | none => true
     | some t => decide (now ≥ t))

/-! ## The resilient request executor

`GitHubClient._make_request` (commitscrapper.py:389-495).  One scripted
entry describes what the transport does for one HTTP attempt: either a
network-level exception, or a response with a status code, the optional
`X-RateLimit-Remaining` / `X-RateLimit-Reset` header pair, and whether the
body contains the substring "rate limit". -/

inductive ScriptEntry where
  | timeout
  | connError
  | otherReqError
  | resp (status : Nat) (rate : Option (Int × Int)) (rateLimitedBody : Bool)
  deriving Repr, DecidableEq

/-- `max_retries = 5` (commitscrapper.py:391). -/
def max_retries : Nat := 5

/-- `retry_delays = [2, 5, 10, 20, 30]` (commitscrapper.py:392). -/
def retry_delays : List Nat := [2, 5, 10, 20, 30]

/-- The observable trace of one `_make_request` call: the value returned
(`some status` when the response object is returned, `none` when the
function returns `None`), the token index used on each HTTP attempt, the
backoff sleeps performed (`retry_delays` entries; the fixed
`REQUEST_DELAY` pacing sleep is not recorded), and the final
`TokenManager` state. -/
structure ReqTrace where
  result : Option Nat
  used : List Nat
  sleeps : List Nat
  final : TMState
  deriving Repr, DecidableEq

/-- `requests.Response.raise_for_status` raises `HTTPError` (a
`RequestException`) exactly for status codes in `[400, 600)`. -/
def raise_for_status_raises (status : Nat) : Bool :=
  decide (400 ≤ status) && decide (status < 600)

/-- The loop body of `GitHubClient._make_request`
(`for attempt in range(max_retries)`, commitscrapper.py:394-492).
`a` is the current attempt index, `fuel` the number of loop iterations
left (`max_retries - a` at the top-level call).
* Global sleep mode check → return `None` (lines 396-398).
* `get_token`, pacing sleep, issue the call (lines 400-413).
* On a response: update the rate limit when the headers are present
  (lines 417-420), then the status dispatch (lines 427-465).
* On `Timeout` / `ConnectionError` / other `RequestException` (including
  the `HTTPError` from `raise_for_status`): sleep `retry_delays[attempt]`
  and continue when `attempt < max_retries - 1`, else return `None`
  (lines 467-492).
* Loop fallthrough → return `None` (lines 494-495). -/
def make_request_go (now : Int) (script : Nat → ScriptEntry) :
    Nat → Nat → TMState → ReqTrace
  | _, 0, st => ⟨none, [], [], st⟩
  | a, Nat.succ fuel, st =>
    if st.global_sleep_mode then
      ⟨none, [], [], st⟩
    else
      let p := get_token now st
      let tok := p.1
      let st1 := p.2
      match script a with
      | .timeout =>
        if a < max_retries - 1 then
          let r := make_request_go now script (a + 1) fuel st1
          ⟨r.result, tok :: r.used, retry_delays.getD a 0 :: r.sleeps, r.final⟩
        else ⟨none, [tok], [], st1⟩
      | .connError =>
        if a < max_retries - 1 then
          let r := make_request_go now script (a + 1) fuel st1
          ⟨r.result, tok :: r.used, retry_delays.getD a 0 :: r.sleeps, r.final⟩
        else ⟨none, [tok], [], st1⟩
      | .otherReqError =>
        if a < max_retries - 1 then
          let r := make_request_go now script (a + 1) fuel st1
          ⟨r.result, tok :: r.used, retry_delays.getD a 0 :: r.sleeps, r.final⟩
        else ⟨none, [tok], [], st1⟩
      | .resp status rate body =>
        let st2 := match rate with
                   | some rr => update_rate_limit st1 tok rr.1 rr.2
                   | none => st1
        if status = 403 then
          if body then
            if all_tokens_exhausted now st2 then ⟨none, [tok], [], st2⟩
            else
              let r := make_request_go now script (a + 1) fuel st2
              ⟨r.result, tok :: r.used, r.sleeps, r.final⟩
          else ⟨none, [tok], [], st2⟩
        else if status = 502 ∨ status = 503 ∨ status = 504 then
          let r := make_request_go now script (a + 1) fuel st2
          ⟨r.result, tok :: r.used, retry_delays.getD a 0 :: r.sleeps, r.final⟩
        else if status = 404 then ⟨none, [tok], [], st2⟩
        else if 400 ≤ status ∧ status < 500 then ⟨none, [tok], [], st2⟩
        else if raise_for_status_raises status then
          if a < max_retries - 1 then
            let r := make_request_go now script (a + 1) fuel st2
            ⟨r.result, tok :: r.used, retry_delays.getD a 0 :: r.sleeps, r.final⟩
          else ⟨none, [tok], [], st2⟩
        else ⟨some status, [tok], [], st2⟩

/-- `GitHubClient._make_request`: run the loop from attempt 0 with
`max_retries` iterations of fuel. -/
def make_request (now : Int) (script : Nat → ScriptEntry) (st : TMState) :
    ReqTrace :=
  make_request_go now script 0 max_retries st

/-! ## The watchdog

`watchdog_thread` (commitscrapper.py:945-977), with one tick per 2-minute
interval; the observation at each tick is the value read from
`processed_count_ref`. -/

/-- The two thread-local variables of `watchdog_thread`. -/
structure WdState where
  last_count : Nat
  hang_checks : Nat
  deriving Repr, DecidableEq

/-- One iteration of the watchdog loop body (commitscrapper.py:956-977):
read `current`, reset the streak on progress, otherwise increment it and
emit the alert (resetting the streak) when it reaches 10.  The returned
`Bool` is whether the alert was sent this tick. -/
def wd_tick (s : WdState) (current : Nat) : WdState × Bool :=
  if s.last_count < current then
    (⟨current, 0⟩, false)
  else
    let h := s.hang_checks + 1
    if 10 ≤ h then (⟨s.last_count, 0⟩, true)
    else (⟨s.last_count, h⟩, false)

/-- Run the watchdog over a list of per-tick observations, collecting the
alert flag of each tick. -/
def wd_run (s : WdState) : List Nat → List Bool
  | [] => []
  | c :: cs =>
    let p := wd_tick s c
    p.2 :: wd_run p.1 cs

/-- The watchdog as started by `main`: `last_count = 0`, `hang_checks = 0`
(commitscrapper.py:947-948). -/
def watchdog_alerts (obs : List Nat) : List Bool :=
  wd_run ⟨0, 0⟩ obs

/-- Length of the current streak of "unchanged" ticks, in the spec's sense:
the streak grows when the tick's observation equals the previous tick's
observation (the counter starts at 0 before the first tick) and resets to
0 when it changed.  `prev` is the previous observation, `r` the streak so
far. -/
def unchanged_streaks (prev : Nat) (r : Nat) : List Nat → List Nat
  | [] => []
  | c :: cs =>
    let r2 := if c = prev then r + 1 else 0
    r2 :: unchanged_streaks c r2 cs

/-- A script entry after which `_make_request`'s loop body always reaches
a sleep-and-retry (or last-attempt give-up) path: a network-level
exception, or a header-free response whose status makes
`raise_for_status` raise after falling through every earlier status
branch (all of `[500, 600)` does: 502/503/504 are handled by the explicit
server-error branch, the rest by the final `raise_for_status`). -/
def isRetryableEntry : ScriptEntry → Bool
  | .timeout => true
  | .connError => true
  | .otherReqError => true
  | .resp s none _ => decide (500 ≤ s) && decide (s < 600)
  | .resp _ (some _) _ => false

/-- A transient failure in the claim's sense: HTTP 502/503/504 (with no
rate-limit headers attached) or a network timeout / connection error. -/
def isTransientEntry : ScriptEntry → Bool
  | .timeout => true
  | .connError => true
  | .resp s none _ => decide (s = 502 ∨ s = 503 ∨ s = 504)
  | _ => false

/-! ## Concrete pool states used as inputs of specific checks -/

/-- A three-token pool, every token at or below the low-water mark,
`global_sleep_mode` already set by a previous `get_token`. -/
def exhaustedPool : TMState :=
  ⟨[⟨0, some 7200, 12⟩, ⟨5, some 7200, 40⟩, ⟨0, some 7200, 7⟩], 1, true⟩

/-- Another exhausted pool in global sleep mode (single-caller scenario). -/
def exhaustedPoolM1 : TMState :=
  ⟨[⟨0, some 3600, 9⟩, ⟨3, none, 2⟩, ⟨10, some 100, 5⟩], 0, true⟩

/-- A pool whose only token has plenty of quota but a reset time in the
future. -/
def futureResetPool : TMState :=
  ⟨[⟨5000, some 9999, 0⟩], 0, false⟩

/-- A two-token pool already in global sleep mode. -/
def sleepModePool : TMState :=
  ⟨[⟨0, none, 17⟩, ⟨0, none, 4⟩], 0, true⟩

/-- A state reached from a fresh two-token pool: both tokens reported
exhausted, then one `get_token` (which enables global sleep mode), then an
update restoring token 1's quota. -/
def staleFlagPool : TMState :=
  update_rate_limit (get_token 0
    (update_rate_limit (update_rate_limit (initTM 2) 0 0 1000) 1 0 1000)).2
    1 5000 1000

/-- A healthy three-token pool (every token fresh). -/
def healthyPool : TMState := initTM 3

/-! ## Basic lemmas about the pool operations -/

/-- Both branches of `_is_token_available` return `remaining > 10`: the
availability test depends only on `remaining`. -/
theorem is_token_available_eq (now : Int) (s : TokenStats) :
    is_token_available now s = decide (s.remaining > 10) := by
  cases s with
  | mk r rt req =>
    cases rt with
    | none => rfl
    | some t => simp [is_token_available]

theorem modifyIdx_length (f : TokenStats → TokenStats) :
    ∀ (l : List TokenStats) (i : Nat), (modifyIdx l i f).length = l.length := by
  intro l
  induction l with
  | nil => intro i; rfl
  | cons x xs ih =>
    intro i
    cases i with
    | zero => rfl
    | succ j => simpa [modifyIdx] using ih j

theorem modifyIdx_getD_remaining (f : TokenStats → TokenStats) (d : TokenStats)
    (hf : ∀ s, (f s).remaining = s.remaining) :
    ∀ (l : List TokenStats) (i j : Nat),
      ((modifyIdx l i f).getD j d).remaining = (l.getD j d).remaining := by
  intro l
  induction l with
  | nil => intro i j; rfl
  | cons x xs ih =>
    intro i j
    cases i with
    | zero =>
      cases j with
      | zero => simpa [modifyIdx] using hf x
      | succ k => simp [modifyIdx]
    | succ i2 =>
      cases j with
      | zero => simp [modifyIdx]
      | succ k => simpa [modifyIdx] using ih i2 k

/-- `incrRequests` leaves every token's availability unchanged. -/
theorem incrRequests_avail (now : Int) (l : List TokenStats) (i j : Nat) :
    is_token_available now ((incrRequests l i).getD j initStats) =
      is_token_available now (l.getD j initStats) := by
  rw [is_token_available_eq, is_token_available_eq]
  unfold incrRequests
  rw [modifyIdx_getD_remaining (fun s => { s with requests := s.requests + 1 })
    initStats (fun s => rfl) l i j]

theorem incrRequests_length (l : List TokenStats) (i : Nat) :
    (incrRequests l i).length = l.length :=
  modifyIdx_length _ l i

/-- Availability of some member of the list, phrased through `getD`. -/
theorem avail_mem_iff (now : Int) (l : List TokenStats) :
    (∃ s ∈ l, is_token_available now s = true) ↔
      ∃ j, j < l.length ∧ is_token_available now (l.getD j initStats) = true := by
  induction l with
  | nil => simp
  | cons x xs ih =>
    constructor
    · rintro ⟨s, hs, ha⟩
      rcases List.mem_cons.mp hs with h | h
      · exact ⟨0, by simp, by simp [h ▸ ha]⟩
      · rcases ih.mp ⟨s, h, ha⟩ with ⟨j, hj, hja⟩
        exact ⟨j + 1, by simpa using hj, by simpa using hja⟩
    · rintro ⟨j, hj, hja⟩
      cases j with
      | zero => exact ⟨x, List.mem_cons_self x xs, by simpa using hja⟩
      | succ k =>
        rcases ih.mpr ⟨k, by simpa using hj, by simpa using hja⟩ with ⟨s, hs, ha⟩
        exact ⟨s, List.mem_cons_of_mem x hs, ha⟩

/-! ## Lemmas about the primary rotation pass -/

/-- Soundness of `primary_pass`: a successful pass returns an available
token at one of the scanned positions, every earlier scanned position
being unavailable, and the cursor advanced just past it. -/
theorem primary_pass_some (now : Int) (n : Nat) (stats : List TokenStats) :
    ∀ fuel cur i c2, cur < n →
      primary_pass now n stats cur fuel = some (i, c2) →
      i < n ∧ is_token_available now (stats.getD i initStats) = true ∧
        c2 = (i + 1) % n ∧
        ∃ s, s < fuel ∧ i = (cur + s) % n ∧
          ∀ s2, s2 < s →
            is_token_available now (stats.getD ((cur + s2) % n) initStats) = false := by
  intro fuel
  induction fuel with
  | zero => intro cur i c2 _ h; exact absurd h (by simp [primary_pass])
  | succ fuel ih =>
    intro cur i c2 hcur h
    unfold primary_pass at h
    by_cases ha : is_token_available now (stats.getD cur initStats) = true
    · rw [if_pos ha] at h
      obtain ⟨rfl, rfl⟩ : cur = i ∧ (cur + 1) % n = c2 := by
        simpa using h
      refine ⟨hcur, ha, rfl, 0, Nat.succ_pos _, ?_, by omega⟩
      rw [Nat.add_zero, Nat.mod_eq_of_lt hcur]
    · rw [if_neg ha] at h
      have hcur2 : (cur + 1) % n < n := Nat.mod_lt _ (by omega)
      obtain ⟨hi, hia, hc2, s, hs, hrot, hbefore⟩ := ih ((cur + 1) % n) i c2 hcur2 h
      refine ⟨hi, hia, hc2, s + 1, by omega, ?_, ?_⟩
      · rw [hrot, Nat.mod_add_mod, Nat.add_assoc, Nat.add_comm 1 s]
      · intro s2 hs2
        cases s2 with
        | zero =>
          rw [Nat.add_zero, Nat.mod_eq_of_lt hcur]
          exact Bool.not_eq_true _ ▸ ha
        | succ s3 =>
          have := hbefore s3 (by omega)
          rwa [Nat.mod_add_mod, Nat.add_assoc, Nat.add_comm 1 s3] at this

/-- Exhaustiveness of `primary_pass`: when the pass fails, every scanned
position was unavailable. -/
theorem primary_pass_none (now : Int) (n : Nat) (stats : List TokenStats) :
    ∀ fuel cur s, cur < n → primary_pass now n stats cur fuel = none → s < fuel →
      is_token_available now (stats.getD ((cur + s) % n) initStats) = false := by
  intro fuel
  induction fuel with
  | zero => intro cur s _ _ hs; omega
  | succ fuel ih =>
    intro cur s hcur h hs
    unfold primary_pass at h
    by_cases ha : is_token_available now (stats.getD cur initStats) = true
    · rw [if_pos ha] at h; exact absurd h (by simp)
    · rw [if_neg ha] at h
      cases s with
      | zero =>
        rw [Nat.add_zero, Nat.mod_eq_of_lt hcur]
        exact Bool.not_eq_true _ ▸ ha
      | succ s2 =>
        have := ih ((cur + 1) % n) s2 (Nat.mod_lt _ (by omega)) h (by omega)
        rwa [Nat.mod_add_mod, Nat.add_assoc, Nat.add_comm 1 s2] at this

/-- Rotation reaches every index: starting from any cursor `cur < n`,
every index `j < n` is scanned within `n` steps. -/
theorem exists_rot (n cur j : Nat) (hc : cur < n) (hj : j < n) :
    ∃ s, s < n ∧ (cur + s) % n = j := by
  by_cases h : cur ≤ j
  · exact ⟨j - cur, by omega, by rw [Nat.add_sub_cancel' h, Nat.mod_eq_of_lt hj]⟩
  · refine ⟨n + j - cur, by omega, ?_⟩
    have h2 : cur + (n + j - cur) = n + j := by omega
    rw [h2, Nat.add_mod_left, Nat.mod_eq_of_lt hj]

/-! ## Lemmas about `get_token` -/

/-- In global sleep mode `get_token` returns token 0 and changes nothing
(commitscrapper.py:205-207). -/
theorem get_token_sleep_mode (now : Int) (st : TMState)
    (h : st.global_sleep_mode = true) : get_token now st = (0, st) := by
  simp [get_token, h]

/-- Out of sleep mode, when some token is available, `get_token` selects
through the primary pass: it returns an available index below the pool
size, leaves the sleep flag clear, advances the cursor just past the
returned index, and increments that token's request counter. -/
theorem get_token_primary (now : Int) (st : TMState)
    (hflag : st.global_sleep_mode = false)
    (hcur : st.current_index < st.stats.length)
    (havail : ∃ j, j < st.stats.length ∧
      is_token_available now (st.stats.getD j initStats) = true) :
    (get_token now st).1 < st.stats.length ∧
    is_token_available now (st.stats.getD (get_token now st).1 initStats) = true ∧
    (get_token now st).2.global_sleep_mode = false ∧
    (get_token now st).2.current_index =
      ((get_token now st).1 + 1) % st.stats.length ∧
    (get_token now st).2.stats = incrRequests st.stats (get_token now st).1 := by
  obtain ⟨j, hj, hja⟩ := havail
  have hps : ∃ q, primary_pass now st.stats.length st.stats st.current_index
      st.stats.length = some q := by
    cases hp : primary_pass now st.stats.length st.stats st.current_index
        st.stats.length with
    | some q => exact ⟨q, rfl⟩
    | none =>
      obtain ⟨s, hs, hrot⟩ := exists_rot st.stats.length st.current_index j hcur hj
      have hnone := primary_pass_none now st.stats.length st.stats
        st.stats.length st.current_index s hcur hp hs
      rw [hrot, hja] at hnone
      exact absurd hnone (by simp)
  obtain ⟨⟨i, c2⟩, hp⟩ := hps
  obtain ⟨hi, hia, hc2, _⟩ := primary_pass_some now st.stats.length st.stats
    st.stats.length st.current_index i c2 hcur hp
  simp only [get_token, hflag, Bool.false_eq_true, if_false, hp]
  exact ⟨hi, hia, trivial, hc2, trivial⟩

/-- Out of sleep mode, when no token is available, `get_token` enables
global sleep mode, increments token 0's request counter and returns
token 0 (commitscrapper.py:231-236). -/
theorem get_token_exhausted (now : Int) (st : TMState)
    (hflag : st.global_sleep_mode = false)
    (hcur : st.current_index < st.stats.length)
    (hnone : ∀ j, j < st.stats.length →
      is_token_available now (st.stats.getD j initStats) = false) :
    get_token now st =
      (0, { st with stats := incrRequests st.stats 0, global_sleep_mode := true }) := by
  have hp : primary_pass now st.stats.length st.stats st.current_index
      st.stats.length = none := by
    cases hp : primary_pass now st.stats.length st.stats st.current_index
        st.stats.length with
    | none => rfl
    | some q =>
      obtain ⟨hi, hia, _⟩ := primary_pass_some now st.stats.length st.stats
        st.stats.length st.current_index q.1 q.2 hcur (by rw [hp])
      rw [hnone q.1 hi] at hia
      exact absurd hia (by simp)
  have hb : borrow_pass now st.stats = none := by
    unfold borrow_pass
    rw [List.findIdx?_eq_none_iff]
    intro x hx
    rcases List.mem_iff_getElem.mp hx with ⟨k, hk, hxk⟩
    have := hnone k hk
    rw [List.getD_eq_getElem?_getD, List.getElem?_eq_getElem hk] at this
    simpa [hxk] using this
  simp [get_token, hflag, hp, hb]

/-- Out of global sleep mode, `get_token` increments the request counter
of exactly the token it returns, whatever branch is taken
(commitscrapper.py:215, 227, 235). -/
theorem get_token_incr (now : Int) (st : TMState)
    (hflag : st.global_sleep_mode = false) :
    (get_token now st).2.stats = incrRequests st.stats (get_token now st).1 := by
  simp only [get_token, hflag, Bool.false_eq_true, if_false]
  cases primary_pass now st.stats.length st.stats st.current_index
      st.stats.length with
  | some q => rfl
  | none =>
    cases borrow_pass now st.stats with
    | some i => rfl
    | none => rfl

/-- The token index returned by `get_token` is always a valid index of the
pool (for a well-formed state: nonempty pool, in-range cursor). -/
theorem get_token_index_lt (now : Int) (st : TMState)
    (hn : 0 < st.stats.length) (hcur : st.current_index < st.stats.length) :
    (get_token now st).1 < st.stats.length := by
  by_cases hflag : st.global_sleep_mode = true
  · rw [get_token_sleep_mode now st hflag]; exact hn
  · have hflag2 : st.global_sleep_mode = false := by
      simpa using hflag
    simp only [get_token, hflag2, Bool.false_eq_true, if_false]
    cases hp : primary_pass now st.stats.length st.stats st.current_index
        st.stats.length with
    | some q =>
      obtain ⟨hi, _⟩ := primary_pass_some now st.stats.length st.stats
        st.stats.length st.current_index q.1 q.2 hcur (by rw [hp])
      simpa using hi
    | none =>
      cases hb : borrow_pass now st.stats with
      | some i =>
        have := List.findIdx?_eq_some_iff_findIdx_eq.mp hb
        simpa using this.1
      | none => simpa using hn

/-- `modifyIdx` at an in-range index applies the function there. -/
theorem modifyIdx_getD_self (f : TokenStats → TokenStats) (d : TokenStats) :
    ∀ (l : List TokenStats) (i : Nat), i < l.length →
      (modifyIdx l i f).getD i d = f (l.getD i d) := by
  intro l
  induction l with
  | nil => intro i h; simp at h
  | cons x xs ih =>
    intro i h
    cases i with
    | zero => rfl
    | succ j => simpa [modifyIdx] using ih j (by simpa using h)

/-- Characterisation of `all_tokens_exhausted` being false. -/
theorem all_tokens_exhausted_false_iff (now : Int) (st : TMState) :
    all_tokens_exhausted now st = false ↔
      ∃ s ∈ st.stats, is_token_available now s = true := by
  simp [all_tokens_exhausted, List.all_eq_false]

/-- Characterisation of `all_tokens_exhausted` being true. -/
theorem all_tokens_exhausted_true_iff (now : Int) (st : TMState) :
    all_tokens_exhausted now st = true ↔
      ∀ s ∈ st.stats, is_token_available now s = false := by
  simp [all_tokens_exhausted, List.all_eq_true]

/-- `get_token` never changes any token's availability: it touches only
the request counters, the cursor and the sleep flag. -/
theorem get_token_preserves_avail (now now2 : Int) (st : TMState) (j : Nat) :
    is_token_available now2 ((get_token now st).2.stats.getD j initStats) =
      is_token_available now2 (st.stats.getD j initStats) := by
  by_cases h : st.global_sleep_mode = true
  · rw [get_token_sleep_mode now st h]
  · have h2 : st.global_sleep_mode = false := by simpa using h
    rw [get_token_incr now st h2, incrRequests_avail]

/-- `get_token` never changes the pool size. -/
theorem get_token_preserves_length (now : Int) (st : TMState) :
    (get_token now st).2.stats.length = st.stats.length := by
  by_cases h : st.global_sleep_mode = true
  · rw [get_token_sleep_mode now st h]
  · have h2 : st.global_sleep_mode = false := by simpa using h
    rw [get_token_incr now st h2, incrRequests_length]

/-- Packaging lemma for the retry-loop induction: consing one more
attempt (with its backoff sleep) onto a trace that satisfies the loop
invariant. -/
theorem cons_trace_facts (a fuel tok : Nat) (res : Option Nat)
    (used sleeps : List Nat)
    (h1 : res = none) (h2 : used.length = fuel)
    (h3 : ∀ k, k + 1 < fuel → sleeps.get? k = some (retry_delays.getD (a + 1 + k) 0))
    (h4 : fuel - 1 ≤ sleeps.length) (h5 : sleeps.length ≤ fuel) :
    res = none ∧ (tok :: used).length = fuel + 1 ∧
    (∀ k, k + 1 < fuel + 1 →
      (retry_delays.getD a 0 :: sleeps).get? k = some (retry_delays.getD (a + k) 0)) ∧
    fuel + 1 - 1 ≤ (retry_delays.getD a 0 :: sleeps).length ∧
    (retry_delays.getD a 0 :: sleeps).length ≤ fuel + 1 := by
  refine ⟨h1, by simp [h2], ?_, by simp; omega, by simp; omega⟩
  intro k hk
  cases k with
  | zero => simp
  | succ k2 =>
    have h6 := h3 k2 (by omega)
    rw [List.get?_cons_succ, show a + (k2 + 1) = a + 1 + k2 by omega]
    exact h6

/-- The retry-loop invariant: starting at attempt `a` with `fuel`
iterations left (`a + fuel = max_retries`), from a healthy pool state,
when every scripted entry is retryable the loop consumes all its
attempts, sleeps the scheduled delay after every non-final attempt, and
returns `None`. -/
theorem retry_loop_exhausts (now : Int) (script : Nat → ScriptEntry)
    (hretry : ∀ k, isRetryableEntry (script k) = true) :
    ∀ fuel a st, a + fuel = max_retries →
      st.global_sleep_mode = false →
      st.current_index < st.stats.length →
      (∃ j, j < st.stats.length ∧
        is_token_available now (st.stats.getD j initStats) = true) →
      (make_request_go now script a fuel st).result = none ∧
      (make_request_go now script a fuel st).used.length = fuel ∧
      (∀ k, k + 1 < fuel →
        (make_request_go now script a fuel st).sleeps.get? k =
          some (retry_delays.getD (a + k) 0)) ∧
      fuel - 1 ≤ (make_request_go now script a fuel st).sleeps.length ∧
      (make_request_go now script a fuel st).sleeps.length ≤ fuel := by
  intro fuel
  induction fuel with
  | zero =>
    intro a st _ _ _ _
    exact ⟨rfl, rfl, fun k hk => by omega, by simp [make_request_go], by simp [make_request_go]⟩
  | succ fuel ih =>
    intro a st htotal hflag hcur hav
    obtain ⟨htok, hia, hflag1, hcur1, hstats1⟩ := get_token_primary now st hflag hcur hav
    have hn : 0 < st.stats.length := by
      obtain ⟨j, hj, _⟩ := hav; omega
    have hlen1 : (get_token now st).2.stats.length = st.stats.length :=
      get_token_preserves_length now st
    have hcur1lt : (get_token now st).2.current_index <
        (get_token now st).2.stats.length := by
      rw [hcur1, hlen1]; exact Nat.mod_lt _ hn
    have hav1 : ∃ j, j < (get_token now st).2.stats.length ∧
        is_token_available now ((get_token now st).2.stats.getD j initStats) = true := by
      obtain ⟨j, hj, hja⟩ := hav
      exact ⟨j, by omega, by rw [get_token_preserves_avail]; exact hja⟩
    have hrec := ih (a + 1) (get_token now st).2 (by omega) hflag1 hcur1lt hav1
    have hra := hretry a
    cases hs : script a with
    | timeout =>
      by_cases hlast : a < max_retries - 1
      · simp only [make_request_go, hflag, Bool.false_eq_true, if_false, hs,
          if_pos hlast]
        exact cons_trace_facts a fuel (get_token now st).1 _ _ _
          hrec.1 hrec.2.1 hrec.2.2.1 hrec.2.2.2.1 hrec.2.2.2.2
      · have hfuel0 : fuel = 0 := by unfold max_retries at htotal hlast; omega
        subst hfuel0
        simp only [make_request_go, hflag, Bool.false_eq_true, if_false, hs,
          if_neg hlast]
        refine ⟨by simp, by simp, fun k hk => by omega, by simp, by simp⟩
    | connError =>
      by_cases hlast : a < max_retries - 1
      · simp only [make_request_go, hflag, Bool.false_eq_true, if_false, hs,
          if_pos hlast]
        exact cons_trace_facts a fuel (get_token now st).1 _ _ _
          hrec.1 hrec.2.1 hrec.2.2.1 hrec.2.2.2.1 hrec.2.2.2.2
      · have hfuel0 : fuel = 0 := by unfold max_retries at htotal hlast; omega
        subst hfuel0
        simp only [make_request_go, hflag, Bool.false_eq_true, if_false, hs,
          if_neg hlast]
        refine ⟨by simp, by simp, fun k hk => by omega, by simp, by simp⟩
    | otherReqError =>
      by_cases hlast : a < max_retries - 1
      · simp only [make_request_go, hflag, Bool.false_eq_true, if_false, hs,
          if_pos hlast]
        exact cons_trace_facts a fuel (get_token now st).1 _ _ _
          hrec.1 hrec.2.1 hrec.2.2.1 hrec.2.2.2.1 hrec.2.2.2.2
      · have hfuel0 : fuel = 0 := by unfold max_retries at htotal hlast; omega
        subst hfuel0
        simp only [make_request_go, hflag, Bool.false_eq_true, if_false, hs,
          if_neg hlast]
        refine ⟨by simp, by simp, fun k hk => by omega, by simp, by simp⟩
    | resp status rate body =>
      rw [hs] at hra
      cases rate with
      | some rr => exact absurd hra (by simp [isRetryableEntry])
      | none =>
        have h56 : 500 ≤ status ∧ status < 600 := by
          simpa [isRetryableEntry] using hra
        have h403 : ¬(status = 403) := by omega
        have h404 : ¬(status = 404) := by omega
        have h4xx : ¬(400 ≤ status ∧ status < 500) := by omega
        by_cases h5xx : status = 502 ∨ status = 503 ∨ status = 504
        · simp only [make_request_go, hflag, Bool.false_eq_true, if_false, hs,
            if_neg h403, if_pos h5xx]
          exact cons_trace_facts a fuel (get_token now st).1 _ _ _
            hrec.1 hrec.2.1 hrec.2.2.1 hrec.2.2.2.1 hrec.2.2.2.2
        · have hraise : raise_for_status_raises status = true := by
            simp only [raise_for_status_raises, Bool.and_eq_true, decide_eq_true_eq]
            omega
          by_cases hlast : a < max_retries - 1
          · simp only [make_request_go, hflag, Bool.false_eq_true, if_false, hs,
              if_neg h403, if_neg h5xx, if_neg h404, if_neg h4xx, hraise,
              if_pos hlast]
            exact cons_trace_facts a fuel (get_token now st).1 _ _ _
              hrec.1 hrec.2.1 hrec.2.2.1 hrec.2.2.2.1 hrec.2.2.2.2
          · have hfuel0 : fuel = 0 := by unfold max_retries at htotal hlast; omega
            subst hfuel0
            simp only [make_request_go, hflag, Bool.false_eq_true, if_false, hs,
              if_neg h403, if_neg h5xx, if_neg h404, if_neg h4xx, hraise,
              if_neg hlast]
            refine ⟨by simp, by simp, fun k hk => by omega, by simp, by simp⟩

/-- A nonempty filtered list yields a position satisfying the predicate. -/
theorem filter_pos_exists (p : TokenStats → Bool) (d : TokenStats)
    (l : List TokenStats) (h : 0 < (l.filter p).length) :
    ∃ k, k < l.length ∧ p (l.getD k d) = true := by
  obtain ⟨y, hy⟩ := List.exists_mem_of_ne_nil _ (List.length_pos.mp h)
  have hmem := List.mem_filter.mp hy
  rcases List.mem_iff_getElem.mp hmem.1 with ⟨k, hk, hky⟩
  refine ⟨k, hk, ?_⟩
  rw [List.getD_eq_getElem?_getD, List.getElem?_eq_getElem hk]
  simpa [hky] using hmem.2

/-- When at least two list entries satisfy the predicate, for any index
`i` there is a satisfying position other than `i`. -/
theorem filter_two_exists_other (p : TokenStats → Bool) (d : TokenStats) :
    ∀ (l : List TokenStats) (i : Nat), 2 ≤ (l.filter p).length →
      ∃ j, j < l.length ∧ j ≠ i ∧ p (l.getD j d) = true := by
  intro l
  induction l with
  | nil => intro i h; simp at h
  | cons x xs ih =>
    intro i h
    by_cases hx : p x
    · have hxs : 1 ≤ (xs.filter p).length := by
        rw [List.filter_cons_of_pos hx] at h
        simpa using h
      obtain ⟨k, hk, hkp⟩ := filter_pos_exists p d xs hxs
      cases i with
      | zero => exact ⟨k + 1, by simpa using hk, by omega, by simpa using hkp⟩
      | succ i2 => exact ⟨0, by simp, by omega, by simpa using hx⟩
    · have hxs : 2 ≤ (xs.filter p).length := by
        rw [List.filter_cons_of_neg hx] at h
        exact h
      cases i with
      | zero =>
        obtain ⟨k, hk, hkp⟩ := filter_pos_exists p d xs (by omega)
        exact ⟨k + 1, by simpa using hk, by omega, by simpa using hkp⟩
      | succ i2 =>
        obtain ⟨k, hk, hki, hkp⟩ := ih i2 hxs
        exact ⟨k + 1, by simpa using hk, by omega, by simpa using hkp⟩

/-- Rotation detail of the primary selection: the selected index sits `s`
rotation steps past the cursor, every index scanned strictly before it
being unavailable. -/
theorem get_token_primary_rot (now : Int) (st : TMState)
    (hflag : st.global_sleep_mode = false)
    (hcur : st.current_index < st.stats.length)
    (havail : ∃ j, j < st.stats.length ∧
      is_token_available now (st.stats.getD j initStats) = true) :
    ∃ s, s < st.stats.length ∧
      (get_token now st).1 = (st.current_index + s) % st.stats.length ∧
      ∀ s2, s2 < s → is_token_available now
        (st.stats.getD ((st.current_index + s2) % st.stats.length) initStats)
          = false := by
  obtain ⟨j, hj, hja⟩ := havail
  have hps : ∃ q, primary_pass now st.stats.length st.stats st.current_index
      st.stats.length = some q := by
    cases hp : primary_pass now st.stats.length st.stats st.current_index
        st.stats.length with
    | some q => exact ⟨q, rfl⟩
    | none =>
      obtain ⟨s, hs, hrot⟩ := exists_rot st.stats.length st.current_index j hcur hj
      have hnone := primary_pass_none now st.stats.length st.stats
        st.stats.length st.current_index s hcur hp hs
      rw [hrot, hja] at hnone
      exact absurd hnone (by simp)
  obtain ⟨⟨i, c2⟩, hp⟩ := hps
  obtain ⟨hi, hia, hc2, s, hs, hrot, hbefore⟩ := primary_pass_some now
    st.stats.length st.stats st.stats.length st.current_index i c2 hcur hp
  refine ⟨s, hs, ?_, hbefore⟩
  simp only [get_token, hflag, Bool.false_eq_true, if_false, hp]
  exact hrot

/-- After the cursor was advanced just past index `i`, a `get_token` that
still finds some other token available never returns `i` again: the scan
from `(i+1) % n` reaches `i` last. -/
theorem get_token_next_ne (now : Int) (st2 : TMState) (i : Nat)
    (hflag : st2.global_sleep_mode = false)
    (hi : i < st2.stats.length)
    (hcur : st2.current_index = (i + 1) % st2.stats.length)
    (hother : ∃ j, j < st2.stats.length ∧ j ≠ i ∧
      is_token_available now (st2.stats.getD j initStats) = true) :
    (get_token now st2).1 ≠ i := by
  obtain ⟨j, hj, hji, hja⟩ := hother
  have hn : 0 < st2.stats.length := by omega
  have hcurlt : st2.current_index < st2.stats.length := by
    rw [hcur]; exact Nat.mod_lt _ hn
  obtain ⟨s, hs, hres, hmin⟩ :=
    get_token_primary_rot now st2 hflag hcurlt ⟨j, hj, hja⟩
  intro hresi
  have hcs : (st2.current_index + s) % st2.stats.length = i := by
    rw [← hres, hresi]
  have hres2 : (i + 1 + s) % st2.stats.length = i := by
    rw [← Nat.mod_add_mod, ← hcur]
    exact hcs
  have hdvd : st2.stats.length ∣ s + 1 := by
    have hmeq : i % st2.stats.length = (i + 1 + s) % st2.stats.length := by
      rw [Nat.mod_eq_of_lt hi, hres2]
    have h1 := (Nat.modEq_iff_dvd' (show i ≤ i + 1 + s by omega)).mp hmeq
    have h2 : i + 1 + s - i = s + 1 := by omega
    rwa [h2] at h1
  have hle : st2.stats.length ≤ s + 1 := Nat.le_of_dvd (by omega) hdvd
  obtain ⟨s2, hs2, hrot2⟩ :=
    exists_rot st2.stats.length st2.current_index j hcurlt hj
  have hs2ne : s2 ≠ s := fun he => hji (by rw [← hrot2, he, hcs])
  have hs2lt : s2 < s := by omega
  have hfalse := hmin s2 hs2lt
  rw [hrot2, hja] at hfalse
  exact absurd hfalse (by simp)

/-- Out of sleep mode, every attempt of the request loop records the token
`get_token` handed it at the head of the `used` trace, in every branch of
the response classification. -/
theorem make_request_go_used_cons (now : Int) (script : Nat → ScriptEntry)
    (a fuel : Nat) (st : TMState) (hflag : st.global_sleep_mode = false) :
    ∃ rest, (make_request_go now script a (fuel + 1) st).used =
      (get_token now st).1 :: rest := by
  cases hs : script a with
  | timeout =>
    simp only [make_request_go, hflag, Bool.false_eq_true, if_false, hs]
    split_ifs <;> exact ⟨_, rfl⟩
  | connError =>
    simp only [make_request_go, hflag, Bool.false_eq_true, if_false, hs]
    split_ifs <;> exact ⟨_, rfl⟩
  | otherReqError =>
    simp only [make_request_go, hflag, Bool.false_eq_true, if_false, hs]
    split_ifs <;> exact ⟨_, rfl⟩
  | resp status rate body =>
    cases rate with
    | none =>
      simp only [make_request_go, hflag, Bool.false_eq_true, if_false, hs]
      split_ifs <;> exact ⟨_, rfl⟩
    | some rr =>
      simp only [make_request_go, hflag, Bool.false_eq_true, if_false, hs]
      split_ifs <;> exact ⟨_, rfl⟩

/-- One unfolding step of the loop on a rate-limited 403 response that does
not find the pool exhausted: update the rate-limit observation, then
continue with the next attempt. -/
theorem make_request_403_step (now : Int) (script : Nat → ScriptEntry)
    (st : TMState) (rem rst : Int) (fuel : Nat)
    (hscript : script 0 = ScriptEntry.resp 403 (some (rem, rst)) true)
    (hflag : st.global_sleep_mode = false)
    (hexh : all_tokens_exhausted now
      (update_rate_limit (get_token now st).2 (get_token now st).1 rem rst)
        = false) :
    (make_request_go now script 0 (fuel + 1) st).used =
      (get_token now st).1 ::
        (make_request_go now script 1 fuel
          (update_rate_limit (get_token now st).2 (get_token now st).1
            rem rst)).used := by
  simp [make_request_go, hflag, hscript, hexh]

/-- Invariant of the watchdog loop: over never-decreasing observations,
starting from the state (last observation, streak % 10), the alert of a
tick fires exactly when the streak of consecutive unchanged observations
at that tick is a positive multiple of 10.  The `% 10` captures that each
alert resets `hang_checks` while the streak keeps growing. -/
theorem wd_run_characterises (obs : List Nat) :
    ∀ (prev r : Nat), List.Chain (· ≤ ·) prev obs →
      ∀ t b L, (wd_run ⟨prev, r % 10⟩ obs).get? t = some b →
        (unchanged_streaks prev r obs).get? t = some L →
        (b = true ↔ 0 < L ∧ L % 10 = 0) := by
  induction obs with
  | nil =>
    intro prev r _ t b L hb _
    simp [wd_run] at hb
  | cons c cs ih =>
    intro prev r hch t b L hb hL
    obtain ⟨hpc, hch2⟩ := List.chain_cons.mp hch
    by_cases hprog : prev < c
    · have hcne : ¬(c = prev) := by omega
      cases t with
      | zero =>
        have hb0 : false = b := by
          simpa [wd_run, wd_tick, hprog] using hb
        have hL0 : (0 : Nat) = L := by
          simpa [unchanged_streaks, hcne] using hL
        subst hb0
        simp
        omega
      | succ t2 =>
        have hb2 : (wd_run ⟨c, 0 % 10⟩ cs).get? t2 = some b := by
          simpa [wd_run, wd_tick, hprog] using hb
        have hL2 : (unchanged_streaks c 0 cs).get? t2 = some L := by
          simpa [unchanged_streaks, hcne] using hL
        exact ih c 0 hch2 t2 b L hb2 hL2
    · have hceq : c = prev := by omega
      by_cases h9 : 10 ≤ r % 10 + 1
      · cases t with
        | zero =>
          have hb0 : true = b := by
            simpa [wd_run, wd_tick, hprog, h9] using hb
          have hL0 : r + 1 = L := by
            simpa [unchanged_streaks, hceq] using hL
          subst hb0
          simp
          omega
        | succ t2 =>
          have hmod : (0 : Nat) = (r + 1) % 10 := by omega
          have hb2 : (wd_run ⟨prev, (r + 1) % 10⟩ cs).get? t2 = some b := by
            rw [← hmod]
            simpa [wd_run, wd_tick, hprog, h9] using hb
          have hL2 : (unchanged_streaks prev (r + 1) cs).get? t2 = some L := by
            simpa [unchanged_streaks, hceq] using hL
          exact ih prev (r + 1) (hceq ▸ hch2) t2 b L hb2 hL2
      · cases t with
        | zero =>
          have hb0 : false = b := by
            simpa [wd_run, wd_tick, hprog, h9] using hb
          have hL0 : r + 1 = L := by
            simpa [unchanged_streaks, hceq] using hL
          subst hb0
          simp
          omega
        | succ t2 =>
          have hmod : r % 10 + 1 = (r + 1) % 10 := by omega
          have hb2 : (wd_run ⟨prev, (r + 1) % 10⟩ cs).get? t2 = some b := by
            rw [← hmod]
            simpa [wd_run, wd_tick, hprog, h9] using hb
          have hL2 : (unchanged_streaks prev (r + 1) cs).get? t2 = some L := by
            simpa [unchanged_streaks, hceq] using hL
          exact ih prev (r + 1) (hceq ▸ hch2) t2 b L hb2 hL2

/-! ## The claims -/

/-- **C1.** The claim states that when M ≥ 1 workers call `sleep_and_reset`
on an exhausted pool, exactly one performs the full recovery sleep and all
M calls return with the pool no longer exhausted.  On the code this fails
already for M = 1: with `global_sleep_mode` set, the single caller passes
both checks, then executes `stats = self.get_stats()` while holding
`self.lock`; `get_stats` re-acquires the same non-reentrant
`threading.Lock`, so the call blocks forever.  No caller performs the
sleep, no caller returns, and the exhausted state is never cleared. -/
theorem single_caller_sleep_never_completes :
    exhaustedPoolM1.global_sleep_mode = true ∧
    all_tokens_exhausted 0 exhaustedPoolM1 = true ∧
    sleep_and_reset 0 exhaustedPoolM1 = none := by decide

/-- **C4.** The claim states that a call of `sleep_and_reset` that performs
the recovery sleep terminates with every token's quota at 5000, every
reset time cleared and `global_sleep_mode` false.  On the code no call
with `global_sleep_mode` set ever reaches the sleep: holding the
non-reentrant `self.lock`, it calls `self.get_stats()`, which re-acquires
the same lock and blocks forever (modelled as the `none` result). -/
theorem sleep_and_reset_deadlocks (now : Int) (st : TMState)
    (h : st.global_sleep_mode = true) :
    sleep_and_reset now st = none := by
  simp [sleep_and_reset, h, get_stats_available, acquireSame]

/-- Witness for C4's theorem at a concrete exhausted pool. -/
theorem sleep_and_reset_deadlocks_witness :
    exhaustedPool.global_sleep_mode = true ∧
    sleep_and_reset 0 exhaustedPool = none :=
  ⟨rfl, sleep_and_reset_deadlocks 0 exhaustedPool rfl⟩

/-- **C2, counterexample.** A credential with `remaining = 5000` and a
reset time strictly in the future fails the spec's availability predicate
(`remaining > 10 AND (resetAt unset OR now ≥ resetAt)`), yet
`_is_token_available` accepts it and `get_token`'s primary pass selects it
(the sleep flag stays clear, so the exhaustion fallback was not taken):
selection is not governed by the spec's predicate. -/
theorem availability_ignores_reset_counterexample :
    spec_available 0 (futureResetPool.stats.getD 0 initStats) = false ∧
    is_token_available 0 (futureResetPool.stats.getD 0 initStats) = true ∧
    (get_token 0 futureResetPool).1 = 0 ∧
    (get_token 0 futureResetPool).2.global_sleep_mode = false := by decide

/-- **C2, amended.** The availability test actually applied by both passes
is `remaining > 10` alone — `reset_time` has no effect.  Whenever the
passes select a token (the sleep flag stays clear), the selected token
satisfies `remaining > 10`; and after `update_rate_limit(c, 0, anything)`,
token `c` fails the test at every instant, however late, until a further
update raises `remaining` above the low-water mark. -/
theorem availability_is_remaining_only :
    (∀ (now : Int) (s : TokenStats),
      is_token_available now s = decide (s.remaining > 10)) ∧
    (∀ (now : Int) (st : TMState), st.global_sleep_mode = false →
      st.current_index < st.stats.length →
      (get_token now st).2.global_sleep_mode = false →
      ((st.stats.getD (get_token now st).1 initStats)).remaining > 10) ∧
    (∀ (st : TMState) (i : Nat) (ts now2 : Int), i < st.stats.length →
      is_token_available now2
        ((update_rate_limit st i 0 ts).stats.getD i initStats) = false) := by
  refine ⟨is_token_available_eq, ?_, ?_⟩
  · intro now st hflag hcur hflag2
    by_cases hav : ∃ j, j < st.stats.length ∧
        is_token_available now (st.stats.getD j initStats) = true
    · obtain ⟨_, hia, _⟩ := get_token_primary now st hflag hcur hav
      rw [is_token_available_eq] at hia
      simpa using hia
    · push_neg at hav
      have hnone : ∀ j, j < st.stats.length →
          is_token_available now (st.stats.getD j initStats) = false :=
        fun j hj => by simpa using hav j hj
      rw [get_token_exhausted now st hflag hcur hnone] at hflag2
      simp at hflag2
  · intro st i ts now2 hi
    rw [is_token_available_eq]
    unfold update_rate_limit
    have := modifyIdx_getD_self
      (fun s => { s with remaining := 0, reset_time := some ts }) initStats
      st.stats i hi
    simp only [this]
    simp

/-- Witness for C2's amended theorem at concrete inputs. -/
theorem availability_is_remaining_only_witness :
    (is_token_available 3 ⟨42, some 99, 0⟩ = decide ((42 : Int) > 10)) ∧
    (healthyPool.global_sleep_mode = false ∧
      healthyPool.current_index < healthyPool.stats.length ∧
      (get_token 0 healthyPool).2.global_sleep_mode = false ∧
      ((healthyPool.stats.getD (get_token 0 healthyPool).1 initStats)).remaining > 10) ∧
    (0 < healthyPool.stats.length ∧
      is_token_available 99999
        ((update_rate_limit healthyPool 0 0 50).stats.getD 0 initStats) = false) :=
  ⟨availability_is_remaining_only.1 3 ⟨42, some 99, 0⟩,
   ⟨rfl, by decide, by decide,
    availability_is_remaining_only.2.1 0 healthyPool rfl (by decide) (by decide)⟩,
   ⟨by decide, availability_is_remaining_only.2.2 healthyPool 0 50 99999 (by decide)⟩⟩

/-- **C5, counterexample.** A reachable state in which `global_sleep_mode`
is still set although a credential satisfies the availability test: start
from a fresh two-token pool, report both tokens down to 0 remaining, call
`get_token` (which, finding none available, enables global sleep mode),
then report token 1 back at 5000 remaining.  The flag stays `true` while
`all_tokens_exhausted` is `false`, refuting the "at every point in time"
equivalence. -/
theorem global_flag_stale_counterexample :
    staleFlagPool.global_sleep_mode = true ∧
    all_tokens_exhausted 2000 staleFlagPool = false ∧
    is_token_available 2000 (staleFlagPool.stats.getD 1 initStats) = true := by
  decide

/-- **C5, amended.** The recomputed check `all_tokens_exhausted` (the
exhaustion question the executor actually asks) is false exactly when some
credential satisfies the availability test, at every state; the
`global_sleep_mode` flag agrees with the predicate only at the moment
`get_token` observes it: a `get_token` call from a clear-flag state leaves
the flag set exactly when no credential was available at that call. -/
theorem exhaustion_check_amended :
    (∀ (now : Int) (st : TMState),
      all_tokens_exhausted now st = false ↔
        ∃ s ∈ st.stats, is_token_available now s = true) ∧
    (∀ (now : Int) (st : TMState), st.global_sleep_mode = false →
      st.current_index < st.stats.length →
      ((get_token now st).2.global_sleep_mode = true ↔
        all_tokens_exhausted now st = true)) := by
  refine ⟨all_tokens_exhausted_false_iff, ?_⟩
  intro now st hflag hcur
  by_cases hav : ∃ j, j < st.stats.length ∧
      is_token_available now (st.stats.getD j initStats) = true
  · obtain ⟨_, _, hflag2, _⟩ := get_token_primary now st hflag hcur hav
    rw [hflag2]
    constructor
    · intro h; exact absurd h (by simp)
    · intro h
      rw [all_tokens_exhausted_true_iff] at h
      obtain ⟨s, hs, hsa⟩ := (avail_mem_iff now st.stats).mpr hav
      rw [h s hs] at hsa
      exact absurd hsa (by simp)
  · push_neg at hav
    have hnone : ∀ j, j < st.stats.length →
        is_token_available now (st.stats.getD j initStats) = false := by
      intro j hj
      have := hav j hj
      simpa using this
    rw [get_token_exhausted now st hflag hcur hnone]
    simp only [true_iff]
    rw [all_tokens_exhausted_true_iff]
    intro s hs
    rcases List.mem_iff_getElem.mp hs with ⟨k, hk, hsk⟩
    have := hnone k hk
    rw [List.getD_eq_getElem?_getD, List.getElem?_eq_getElem hk] at this
    simpa [hsk] using this

/-- Witness for C5's amended theorem at concrete inputs. -/
theorem exhaustion_check_amended_witness :
    (all_tokens_exhausted 0 healthyPool = false ↔
      ∃ s ∈ healthyPool.stats, is_token_available 0 s = true) ∧
    (healthyPool.global_sleep_mode = false ∧
      healthyPool.current_index < healthyPool.stats.length ∧
      ((get_token 0 healthyPool).2.global_sleep_mode = true ↔
        all_tokens_exhausted 0 healthyPool = true)) :=
  ⟨exhaustion_check_amended.1 0 healthyPool,
   rfl, by decide, exhaustion_check_amended.2 0 healthyPool rfl (by decide)⟩

/-- **C6, counterexample.** In global sleep mode `get_token` returns token
0 with the whole state unchanged: the returned credential's request
counter is not incremented, refuting "in every pool state including
global sleep mode". -/
theorem sleep_mode_no_increment_counterexample :
    (get_token 0 sleepModePool).1 = 0 ∧
    ((get_token 0 sleepModePool).2.stats.getD 0 initStats).requests =
      (sleepModePool.stats.getD 0 initStats).requests := by decide

/-- **C6, amended.** Whenever `global_sleep_mode` is clear, the request
counter of exactly the credential returned by `get_token` is incremented
by one, in every branch (primary, borrow, exhaustion fallback); when the
flag is already set, `get_token` returns token 0 with no state change at
all. -/
theorem get_token_requests_amended :
    (∀ (now : Int) (st : TMState), st.global_sleep_mode = false →
      0 < st.stats.length → st.current_index < st.stats.length →
      ((get_token now st).2.stats.getD (get_token now st).1 initStats).requests =
        ((st.stats.getD (get_token now st).1 initStats)).requests + 1) ∧
    (∀ (now : Int) (st : TMState), st.global_sleep_mode = true →
      get_token now st = (0, st)) := by
  constructor
  · intro now st hflag hn hcur
    rw [get_token_incr now st hflag]
    unfold incrRequests
    rw [modifyIdx_getD_self _ initStats st.stats (get_token now st).1
      (get_token_index_lt now st hn hcur)]
  · intro now st h
    exact get_token_sleep_mode now st h

/-- Witness for C6's amended theorem at concrete inputs. -/
theorem get_token_requests_amended_witness :
    (healthyPool.global_sleep_mode = false ∧
      0 < healthyPool.stats.length ∧
      healthyPool.current_index < healthyPool.stats.length ∧
      ((get_token 7 healthyPool).2.stats.getD (get_token 7 healthyPool).1
          initStats).requests =
        ((healthyPool.stats.getD (get_token 7 healthyPool).1 initStats)).requests
          + 1) ∧
    (exhaustedPool.global_sleep_mode = true ∧
      get_token 7 exhaustedPool = (0, exhaustedPool)) :=
  ⟨⟨rfl, by decide, by decide,
    get_token_requests_amended.1 7 healthyPool rfl (by decide) (by decide)⟩,
   rfl, get_token_requests_amended.2 7 exhaustedPool rfl⟩

/-- **C8.** `get_token` is a total function of the pool state (it cannot
raise and has no blocking construct in its body beyond the state mutex):
for every well-formed pool (at least one token, cursor in range) and every
quota state it returns an index of the pool, and when the sleep flag is
clear and no token passes the availability test it takes the exhaustion
fallback: the flag is set and token 0 — the designated first credential —
is returned. -/
theorem get_token_total_safe (now : Int) (st : TMState)
    (hn : 0 < st.stats.length) (hcur : st.current_index < st.stats.length) :
    (get_token now st).1 < st.stats.length ∧
    (st.global_sleep_mode = false →
      (∀ j, j < st.stats.length →
        is_token_available now (st.stats.getD j initStats) = false) →
      (get_token now st).2.global_sleep_mode = true ∧ (get_token now st).1 = 0) := by
  refine ⟨get_token_index_lt now st hn hcur, ?_⟩
  intro hflag hnone
  rw [get_token_exhausted now st hflag hcur hnone]
  exact ⟨rfl, rfl⟩

/-- Witness for C8's theorem at a concrete all-unavailable pool. -/
theorem get_token_total_safe_witness :
    (0 < (update_rate_limit (initTM 1) 0 0 10).stats.length ∧
      (update_rate_limit (initTM 1) 0 0 10).current_index <
        (update_rate_limit (initTM 1) 0 0 10).stats.length) ∧
    (get_token 0 (update_rate_limit (initTM 1) 0 0 10)).1 <
      (update_rate_limit (initTM 1) 0 0 10).stats.length ∧
    ((update_rate_limit (initTM 1) 0 0 10).global_sleep_mode = false →
      (∀ j, j < (update_rate_limit (initTM 1) 0 0 10).stats.length →
        is_token_available 0
          ((update_rate_limit (initTM 1) 0 0 10).stats.getD j initStats) = false) →
      (get_token 0 (update_rate_limit (initTM 1) 0 0 10)).2.global_sleep_mode = true ∧
        (get_token 0 (update_rate_limit (initTM 1) 0 0 10)).1 = 0) :=
  ⟨⟨by decide, by decide⟩,
   get_token_total_safe 0 (update_rate_limit (initTM 1) 0 0 10)
     (by decide) (by decide)⟩

/-- **C3, counterexample.** A 429 response — even one whose body announces
rate limiting, received while all three credentials of a healthy pool are
available — is swallowed by the generic 4xx branch
(`400 <= status < 500`): `_make_request` returns `None` after a single
attempt, making no next attempt at all, refuting the claimed rotation on
429. -/
theorem status_429_no_retry_counterexample :
    2 ≤ (healthyPool.stats.filter (is_token_available 0)).length ∧
    (make_request 0 (fun _ => ScriptEntry.resp 429 none true) healthyPool).result
      = none ∧
    (make_request 0 (fun _ => ScriptEntry.resp 429 none true)
      healthyPool).used.length = 1 := by decide

/-- **C3, amended.** A 429 response is a terminal client error for the
executor: one attempt, `None` returned, no rotation.  The claimed rotation
behaviour does hold for the responses the code actually classifies as rate
limiting — a 403 whose body contains "rate limit": when at least two
credentials are still available after the response's quota update, the
executor makes a next attempt and the credential of that next attempt
differs from the failed attempt's credential. -/
theorem rate_limit_rotation_amended :
    (∀ (now : Int) (st : TMState) (script : Nat → ScriptEntry)
        (rate : Option (Int × Int)) (b : Bool),
      st.global_sleep_mode = false →
      script 0 = ScriptEntry.resp 429 rate b →
      (make_request now script st).result = none ∧
        (make_request now script st).used.length = 1) ∧
    (∀ (now : Int) (st : TMState) (script : Nat → ScriptEntry) (rem rst : Int),
      script 0 = ScriptEntry.resp 403 (some (rem, rst)) true →
      st.global_sleep_mode = false →
      st.current_index < st.stats.length →
      (∃ j, j < st.stats.length ∧
        is_token_available now (st.stats.getD j initStats) = true) →
      2 ≤ ((update_rate_limit (get_token now st).2 (get_token now st).1
            rem rst).stats.filter (is_token_available now)).length →
      ∃ i j rest, (make_request now script st).used = i :: j :: rest ∧ j ≠ i) := by
  constructor
  · intro now st script rate b hflag hscript
    have h1 : ¬((429 : Nat) = 403) := by omega
    have h2 : ¬((429 : Nat) = 502 ∨ (429 : Nat) = 503 ∨ (429 : Nat) = 504) := by
      omega
    have h3 : ¬((429 : Nat) = 404) := by omega
    have h4 : (400 ≤ (429 : Nat) ∧ (429 : Nat) < 500) := by omega
    cases rate with
    | none =>
      constructor <;>
        · show _ = _
          rw [show make_request now script st =
            make_request_go now script 0 (4 + 1) st from rfl]
          simp [make_request_go, hflag, hscript, h1, h2, h3, h4]
    | some rr =>
      constructor <;>
        · show _ = _
          rw [show make_request now script st =
            make_request_go now script 0 (4 + 1) st from rfl]
          simp [make_request_go, hflag, hscript, h1, h2, h3, h4]
  · intro now st script rem rst hscript hflag hcur havail h2
    obtain ⟨htok, hia, hflag1, hcur1, hstats1⟩ :=
      get_token_primary now st hflag hcur havail
    have hn : 0 < st.stats.length := by
      obtain ⟨j, hj, _⟩ := havail; omega
    set st2 := update_rate_limit (get_token now st).2 (get_token now st).1
      rem rst with hst2
    have hlen2 : st2.stats.length = st.stats.length := by
      rw [hst2]
      unfold update_rate_limit
      simp only [modifyIdx_length]
      rw [hstats1, incrRequests_length]
    have hflag2 : st2.global_sleep_mode = false := by
      rw [hst2]; exact hflag1
    have hcur2 : st2.current_index = ((get_token now st).1 + 1) %
        st2.stats.length := by
      rw [hst2]
      show (get_token now st).2.current_index = _
      rw [hcur1, hlen2]
    have hexh : all_tokens_exhausted now st2 = false := by
      rw [all_tokens_exhausted_false_iff]
      obtain ⟨k, hk, hkp⟩ :=
        filter_pos_exists (is_token_available now) initStats st2.stats (by omega)
      exact (avail_mem_iff now st2.stats).mpr ⟨k, hk, hkp⟩
    have hstep := make_request_403_step now script st rem rst 4 hscript hflag hexh
    have hused : (make_request now script st).used =
        (get_token now st).1 :: (make_request_go now script 1 (3 + 1) st2).used :=
      hstep
    obtain ⟨rest, hrest⟩ := make_request_go_used_cons now script 1 3 st2 hflag2
    have hother : ∃ j, j < st2.stats.length ∧ j ≠ (get_token now st).1 ∧
        is_token_available now (st2.stats.getD j initStats) = true := by
      obtain ⟨j, hj, hji, hjp⟩ := filter_two_exists_other
        (is_token_available now) initStats st2.stats (get_token now st).1 h2
      exact ⟨j, hj, hji, hjp⟩
    have hne := get_token_next_ne now st2 (get_token now st).1 hflag2
      (by rw [hlen2]; exact htok) hcur2 hother
    exact ⟨(get_token now st).1, (get_token now st2).1, rest,
      by rw [hused, hrest], hne⟩

/-- Witness for C3's amended theorem at concrete inputs: a 429 script and a
403-rate-limit script against a healthy three-token pool. -/
theorem rate_limit_rotation_amended_witness :
    (healthyPool.global_sleep_mode = false ∧
      (make_request 0 (fun _ => ScriptEntry.resp 429 (some (9, 9)) false)
        healthyPool).result = none ∧
      (make_request 0 (fun _ => ScriptEntry.resp 429 (some (9, 9)) false)
        healthyPool).used.length = 1) ∧
    (healthyPool.current_index < healthyPool.stats.length ∧
      2 ≤ ((update_rate_limit (get_token 0 healthyPool).2
            (get_token 0 healthyPool).1 4000 777).stats.filter
              (is_token_available 0)).length ∧
      ∃ i j rest,
        (make_request 0 (fun _ => ScriptEntry.resp 403 (some (4000, 777)) true)
          healthyPool).used = i :: j :: rest ∧ j ≠ i) :=
  ⟨⟨rfl, rate_limit_rotation_amended.1 0 healthyPool _ (some (9, 9)) false rfl rfl⟩,
   ⟨by decide, by decide,
    rate_limit_rotation_amended.2 0 healthyPool _ 4000 777 rfl rfl (by decide)
      ⟨0, by decide, by decide⟩ (by decide)⟩⟩

/-- **C7.** For every script consisting only of transient failures
(502/503/504 responses or network timeouts / connection errors), starting
from a healthy pool state, `_make_request` makes exactly `max_retries = 5`
attempts, sleeps the scheduled backoff delay `[2, 5, 10, 20, 30]` indexed
by attempt between consecutive attempts, and finally returns `None`
(modelled as a total function: the exceptions of the transport are caught
inside the loop and never propagate). -/
theorem transient_retries_to_ceiling (now : Int) (script : Nat → ScriptEntry)
    (st : TMState)
    (htrans : ∀ k, isTransientEntry (script k) = true)
    (hflag : st.global_sleep_mode = false)
    (hcur : st.current_index < st.stats.length)
    (hav : ∃ j, j < st.stats.length ∧
      is_token_available now (st.stats.getD j initStats) = true) :
    (make_request now script st).result = none ∧
    (make_request now script st).used.length = max_retries ∧
    (∀ k, k + 1 < max_retries →
      (make_request now script st).sleeps.get? k =
        some (retry_delays.getD k 0)) ∧
    max_retries - 1 ≤ (make_request now script st).sleeps.length ∧
    (make_request now script st).sleeps.length ≤ max_retries := by
  have hretry : ∀ k, isRetryableEntry (script k) = true := by
    intro k
    have h := htrans k
    cases hs : script k with
    | timeout => rfl
    | connError => rfl
    | otherReqError => rw [hs] at h; exact absurd h (by simp [isTransientEntry])
    | resp s rate b =>
      rw [hs] at h
      cases rate with
      | some rr => exact absurd h (by simp [isTransientEntry])
      | none =>
        have h5 : s = 502 ∨ s = 503 ∨ s = 504 := by
          simpa [isTransientEntry] using h
        simp only [isRetryableEntry, Bool.and_eq_true, decide_eq_true_eq]
        omega
  have hmain := retry_loop_exhausts now script hretry max_retries 0 st rfl
    hflag hcur hav
  simpa [make_request] using hmain

/-- Witness for C7's theorem: five consecutive 503 responses against a
healthy three-token pool. -/
theorem transient_retries_to_ceiling_witness :
    (make_request 0 (fun _ => ScriptEntry.resp 503 none false)
      healthyPool).result = none ∧
    (make_request 0 (fun _ => ScriptEntry.resp 503 none false)
      healthyPool).used.length = max_retries ∧
    (∀ k, k + 1 < max_retries →
      (make_request 0 (fun _ => ScriptEntry.resp 503 none false)
        healthyPool).sleeps.get? k = some (retry_delays.getD k 0)) ∧
    max_retries - 1 ≤ (make_request 0 (fun _ => ScriptEntry.resp 503 none false)
      healthyPool).sleeps.length ∧
    (make_request 0 (fun _ => ScriptEntry.resp 503 none false)
      healthyPool).sleeps.length ≤ max_retries :=
  transient_retries_to_ceiling 0 _ healthyPool (fun _ => rfl) rfl (by decide)
    ⟨0, by decide, by decide⟩

/-- **C10.** Every response status in `[500, 600)` other than 502/503/504
(such as 500 or 501) falls through all explicit status branches to
`raise_for_status`, whose `HTTPError` is caught by the generic
`RequestException` handler: the executor sleeps the attempt's scheduled
backoff delay and retries, and only after the 5-attempt ceiling does it
return `None` — the exception never propagates to the caller. -/
theorem other_5xx_retries_like_transient (now : Int)
    (script : Nat → ScriptEntry) (st : TMState) (code : Nat)
    (h500 : 500 ≤ code) (h600 : code < 600)
    (_h502 : code ≠ 502) (_h503 : code ≠ 503) (_h504 : code ≠ 504)
    (hscript : ∀ k, ∃ b, script k = ScriptEntry.resp code none b)
    (hflag : st.global_sleep_mode = false)
    (hcur : st.current_index < st.stats.length)
    (hav : ∃ j, j < st.stats.length ∧
      is_token_available now (st.stats.getD j initStats) = true) :
    (make_request now script st).result = none ∧
    (make_request now script st).used.length = max_retries ∧
    (∀ k, k + 1 < max_retries →
      (make_request now script st).sleeps.get? k =
        some (retry_delays.getD k 0)) ∧
    max_retries - 1 ≤ (make_request now script st).sleeps.length ∧
    (make_request now script st).sleeps.length ≤ max_retries := by
  have hretry : ∀ k, isRetryableEntry (script k) = true := by
    intro k
    obtain ⟨b, hb⟩ := hscript k
    rw [hb]
    simp only [isRetryableEntry, Bool.and_eq_true, decide_eq_true_eq]
    omega
  have hmain := retry_loop_exhausts now script hretry max_retries 0 st rfl
    hflag hcur hav
  simpa [make_request] using hmain

/-- Witness for C10's theorem: five consecutive 500 responses against a
healthy three-token pool. -/
theorem other_5xx_retries_like_transient_witness :
    (make_request 0 (fun _ => ScriptEntry.resp 500 none false)
      healthyPool).result = none ∧
    (make_request 0 (fun _ => ScriptEntry.resp 500 none false)
      healthyPool).used.length = max_retries ∧
    (∀ k, k + 1 < max_retries →
      (make_request 0 (fun _ => ScriptEntry.resp 500 none false)
        healthyPool).sleeps.get? k = some (retry_delays.getD k 0)) ∧
    max_retries - 1 ≤ (make_request 0 (fun _ => ScriptEntry.resp 500 none false)
      healthyPool).sleeps.length ∧
    (make_request 0 (fun _ => ScriptEntry.resp 500 none false)
      healthyPool).sleeps.length ≤ max_retries :=
  other_5xx_retries_like_transient 0 _ healthyPool 500 (by omega) (by omega)
    (by omega) (by omega) (by omega) (fun _ => ⟨false, rfl⟩) rfl (by decide)
    ⟨0, by decide, by decide⟩

/-- **C9.** Over never-decreasing progress observations (the dispatcher
only increments the counter), the watchdog emits its alert at tick `t`
exactly when the counter has then been unchanged for a streak of ticks
whose length is 10 (or, because each alert resets the internal
`hang_checks` streak to 0 while the run of unchanged observations keeps
growing, any further multiple of 10 — repeated alerts need another 10
unchanged intervals each).  The loop body only reads the counter and calls
the notifier: the embedding has no action on workers. -/
theorem watchdog_alert_characterisation (obs : List Nat)
    (hmono : List.Chain (· ≤ ·) 0 obs) :
    ∀ t b L, (watchdog_alerts obs).get? t = some b →
      (unchanged_streaks 0 0 obs).get? t = some L →
      (b = true ↔ 0 < L ∧ L % 10 = 0) := by
  intro t b L hb hL
  exact wd_run_characterises obs 0 0 hmono t b L hb hL

/-- Witness for C9's theorem: 12 ticks with the counter stuck at 0; the
alert fires exactly at the tenth tick (index 9). -/
theorem watchdog_alert_characterisation_witness :
    List.Chain (· ≤ ·) 0 (List.replicate 12 0) ∧
    (watchdog_alerts (List.replicate 12 0)).get? 9 = some true ∧
    (unchanged_streaks 0 0 (List.replicate 12 0)).get? 9 = some 10 ∧
    (true = true ↔ 0 < 10 ∧ 10 % 10 = 0) :=
  ⟨by repeat constructor, by decide, by decide,
   watchdog_alert_characterisation (List.replicate 12 0)
     (by repeat constructor) 9 true 10 (by decide) (by decide)⟩

end Commitscrapper
